/-
Verification of the entsoe-client parser utilities
(src/entsoe_client/Parsers/ParserUtils.py) against their specification.

The Python module converts parsed XML market-data documents into tabular
records.  This file gives a shallow embedding of the functions the claims
are about:

* `check_period_data_missing` / `get_Period_data` — position reconciliation
  (forward-fill of sparse `Point` observations, tail padding to the index
  length);
* `get_Period_index` / `resolution_map` — the time-index builder;
* `unfold_node` — the recursive tree decomposer;
* `get_data` — the outage-document data extractor with its sentinel row;
* `get_resource` — the affected-resource metadata merger.

Modelling conventions:
* A `Point` record `{'position': str, key: str}` is modelled as `Rec` with
  the position held as the parsed integer (the Python code converts with
  `int(...)` everywhere it compares or sorts, and writes back `str(...)`;
  canonical decimal strings and the integers they denote are in bijection).
* Python exceptions (KeyError from `complete_data[prev_position]`,
  IndexError from `data[0]` on an empty list, KeyError from the resolution
  table) are modelled as `none` of an `Option` result.
* `list.sort` is Python's stable sort by key; it is modelled with
  `List.mergeSort`, which is stable.
* A Python `dict` built from a list of key/value pairs keeps keys in order
  of first insertion and, for a repeated key, the last value written.
* Timestamps are modelled as minutes (an integer offset from an arbitrary
  epoch); the fixed-interval pandas frequencies ("7D", "1D", "60min",
  "30min", "15min", "1min") are modelled by their length in minutes.  The
  two calendar month-end frequencies ("12M", "1M") have no fixed tick and
  their generation is outside this model; no claim depends on them beyond
  the table lookup itself.
-/
import Mathlib

namespace EntsoeClient

/-- One `Point` record `{'position': p, key: v}` of the standard period
parser, with the position as its parsed integer value. -/
structure Rec where
  position : Nat
  value : String
deriving DecidableEq, Repr

/-- The sort key `lambda x: int(x['position'])` as a relation. -/
def posLe (a b : Rec) : Prop := a.position ≤ b.position

instance : DecidableRel posLe := fun a b => Nat.decLe a.position b.position

/-- `data.sort(key=lambda x: int(x['position']))`: Python's sort is stable;
any two stable sorts by the same key agree on every input, so it is
modelled by stable insertion sort. -/
def sortByPos (data : List Rec) : List Rec :=
  data.insertionSort posLe

/-- Lookup in the Python dict
`complete_data = {int(pos['position']): pos[key] for pos in data}`:
for a repeated position the record written last wins. -/
def dictLookup (data : List Rec) (p : Nat) : Option String :=
  ((data.filter (fun r => r.position = p)).getLast?).map (·.value)

/-- `max(filter(lambda x: x < position, complete_data), default=0)`:
the largest position below `p` present in the data, defaulting to `0`.
(Taking the max over the list of positions instead of the dict's key set
changes nothing: the maximum of a multiset equals that of its support.) -/
def prevPos (data : List Rec) (p : Nat) : Nat :=
  ((data.map (·.position)).filter (· < p)).foldl Nat.max 0

/-- The loop
`for position in range(1, max(complete_data) + 1): if position not in
complete_data: data.append({'position': str(position), key:
complete_data[prev_position]})` — computes the list of appended gap
records, in loop order.  `none` models the `KeyError` raised when a gap
has no lower neighbour and `0` is not a key. -/
def gapFills (sorted : List Rec) : List Nat → Option (List Rec)
  | [] => some []
  | p :: ps =>
    match dictLookup sorted p with
    | some _ => gapFills sorted ps
    | none =>
      match dictLookup sorted (prevPos sorted p) with
      | none => none
      | some v => (gapFills sorted ps).map (fun fs => ⟨p, v⟩ :: fs)

/-- `check_period_data_missing(data, key)`: sort by position, forward-fill
every position missing from `[1, max position]` with the value of the
nearest lower present position, re-sort, return.  `none` models the
exceptions raised on an empty list (`max` of an empty dict) or on an
unfillable gap (`KeyError`). -/
def check_period_data_missing (data : List Rec) : Option (List Rec) :=
  match data with
  | [] => none
  | _ :: _ =>
    let sorted := sortByPos data
    let maxP := (sorted.map (·.position)).foldl Nat.max 0
    (gapFills sorted ((List.range maxP).map (· + 1))).map
      (fun fills => sortByPos (sorted ++ fills))

/-- `check_period_data_missing` with the in-place mutation of its argument
made explicit: Python's `data.sort(...)` and `data.append(...)` mutate the
caller's list, and the function returns that very object, so after the
call the caller's binding and the returned value are one and the same
list.  The pair is `(returned value, caller's list after the call)`. -/
def check_period_data_missing_st (data : List Rec) :
    Option (List Rec × List Rec) :=
  (check_period_data_missing data).map (fun r => (r, r))

/-- `get_Period_data(Period, length)`, with the `Point` children already
extracted to records: reconcile via `check_period_data_missing`, then, if
the reconciled count differs from `length`, append
`{'position': str(i + 1), key: data[-1][key]}` for `i in
range(length - len(data))`.  `none` models the `IndexError` raised by
`list(data[0].keys())[1]` on an empty point list (and the exceptions of
`check_period_data_missing`). -/
def get_Period_data (points : List Rec) (length : Nat) : Option (List Rec) :=
  match points with
  | [] => none
  | _ :: _ =>
    (check_period_data_missing points).map (fun d =>
      match d.getLast? with
      | none => d
      | some last =>
        if length = d.length then d
        else d ++ (List.range (length - d.length)).map
          (fun i => ⟨i + 1, last.value⟩))

/-! ### Time index builder (`get_Period_index`, `resolution_map`) -/

/-- A pandas frequency: either a fixed tick of a given number of minutes
("7D", "1D", "60min", "30min", "15min", "1min") or a calendar month-end
frequency ("12M", "1M"), whose generated timestamps are not a fixed tick
apart. -/
inductive PdFreq where
  | tick (minutes : Nat)
  | monthEnd (months : Nat)
deriving DecidableEq, Repr

/-- The module's fixed `resolution_map` dict, mapping resolution codes to
pandas frequency strings; `none` models the `KeyError` on any other code. -/
def resolution_map (code : String) : Option String :=
  if code = "P1Y" then some "12M"
  else if code = "P1M" then some "1M"
  else if code = "P7D" then some "7D"
  else if code = "P1D" then some "1D"
  else if code = "PT60M" then some "60min"
  else if code = "PT30M" then some "30min"
  else if code = "PT15M" then some "15min"
  else if code = "PT1M" then some "1min"
  else none

/-- How pandas reads the frequency strings that `resolution_map` can
produce (an external collaborator, modelled only on that range). -/
def pandas_freq (freq : String) : Option PdFreq :=
  if freq = "12M" then some (.monthEnd 12)
  else if freq = "1M" then some (.monthEnd 1)
  else if freq = "7D" then some (.tick 10080)
  else if freq = "1D" then some (.tick 1440)
  else if freq = "60min" then some (.tick 60)
  else if freq = "30min" then some (.tick 30)
  else if freq = "15min" then some (.tick 15)
  else if freq = "1min" then some (.tick 1)
  else none

/-- `pd.date_range(start, end, freq)` for a fixed tick of `f` minutes:
the timestamps `start, start + f, start + 2f, …` not exceeding `end`
(empty when `end < start`).  Timestamps are minutes from an arbitrary
epoch. -/
def date_range_tick (start e : Int) (f : Nat) : List Int :=
  if e < start ∨ f = 0 then []
  else (List.range ((e - start).toNat / f + 1)).map
    (fun i => start + (f : Int) * i)

/-- `get_Period_index(Period)`: look up the Period's resolution code in
`resolution_map` (a `KeyError`, modelled `none`, on unknown codes), build
`pd.date_range(start, end, freq)`, and drop the final entry unless the
range has at most one element.  The month-end frequencies fall outside
the fixed-tick timestamp model and also yield `none`; no claim rests on
them past the table lookup. -/
def get_Period_index (start e : Int) (resolution : String) :
    Option (List Int) :=
  match resolution_map resolution with
  | none => none
  | some freqStr =>
    match pandas_freq freqStr with
    | some (.tick f) =>
      let index := date_range_tick start e f
      some (if index.length > 1 then index.dropLast else index)
    | _ => none

/-! ### Outage data extractor (`get_data`) -/

/-- One extracted outage `Point` row.  The sentinel row the code emits for
an empty point list is `{'position': -1, 'quantity': 0}` (Python ints);
ordinary rows carry the values parsed from the document. -/
structure OutRec where
  position : Int
  quantity : Int
deriving DecidableEq, Repr

/-- Python sequence indexing `l[i]`, where a negative `i` counts from the
end; `none` models the `IndexError` when out of range. -/
def pyIdx (l : List α) (i : Int) : Option α :=
  if 0 ≤ i then l.get? i.toNat
  else if i.natAbs ≤ l.length then l.get? (l.length - i.natAbs)
  else none

/-- `get_data(Period)`, with the index already built by `get_index` and
the `Point` children already extracted: when no points exist, return the
fallback index with the single sentinel row `(position -1, quantity 0)`;
otherwise re-index, mapping each row to `index[position - 1]` (`none`
models the `IndexError` for a position beyond the index). -/
def get_data (index : List Int) (data : List OutRec) :
    Option (List Int × List OutRec) :=
  match data with
  | [] => some (index, [⟨-1, 0⟩])
  | _ :: _ =>
    (data.mapM (fun e => pyIdx index (e.position - 1))).map
      (fun newInd => (newInd, data))

/-! ### Tree decomposer (`unfold_node`) -/

/-- A parsed XML element: tag, optional text, ordered children. -/
inductive XNode where
  | mk (tag : String) (text : Option String) (children : List XNode)

/-- The tag of a node. -/
def XNode.tag : XNode → String
  | .mk t _ _ => t

/-- The text of a node. -/
def XNode.text : XNode → Option String
  | .mk _ x _ => x

/-- The children of a node. -/
def XNode.children : XNode → List XNode
  | .mk _ _ c => c

/-- The value part of `unfold_node`'s result: a leaf's text, or a
mapping from child tag to child value. -/
inductive UVal where
  | text (t : Option String)
  | map (m : List (String × UVal))

/-- The keys of a Python dict built from a pair list: each distinct key
once, in order of first insertion. -/
def firstKeys (ks : List String) : List String :=
  ks.foldl (fun acc k => if k ∈ acc then acc else acc ++ [k]) []

/-- The value a Python dict built from a pair list holds at a key: the
value of the last pair carrying that key. -/
def lastValue (ps : List (String × α)) (k : String) : Option α :=
  ((ps.filter (fun q => q.1 = k)).getLast?).map (·.2)

/-- `dict(pairs)` in Python: keys in order of first insertion, each with
the value written last. -/
def pyDict (ps : List (String × α)) : List (String × α) :=
  (firstKeys (ps.map (·.1))).filterMap
    (fun k => (lastValue ps k).map (fun v => (k, v)))

/-- `unfold_node(node)`: a leaf yields `(tag, node.text)`; a non-leaf
yields `(tag, dict([unfold_node(child) for child in children]))`. -/
def unfold_node : XNode → String × UVal
  | .mk tag text [] => (tag, .text text)
  | .mk tag _ (c0 :: cs) =>
    (tag, .map (pyDict ((c0 :: cs).attach.map
      (fun c => unfold_node c.1))))
decreasing_by
  have := List.sizeOf_lt_of_mem c.2
  simp only [XNode.mk.sizeOf_spec]
  omega

/-! ### Affected-resource merger (`get_resource`) -/

/-- `get_resource(Period)`, with each `Asset_RegisteredResource` element
given as its ordered `(tag, text)` children.  When `find` locates no such
element the function falls through and returns `None` (modelled `none`);
the `len(data) == 0` placeholder branch is unreachable behind that guard,
since `xpath` on the same path then yields at least one element.
Otherwise each element becomes a dict keyed by
`"Asset_RegisteredResource." + tag`, and the dicts are merged by
comma-joining, per key, the values in order of appearance. -/
def get_resource (entries : List (List (String × String))) :
    Option (List (String × String)) :=
  match entries with
  | [] => none
  | _ :: _ =>
    let data := entries.map (fun e =>
      pyDict (e.map (fun q => ("Asset_RegisteredResource." ++ q.1, q.2))))
    let pairs := data.flatten
    some ((firstKeys (pairs.map (·.1))).map (fun k =>
      (k, String.intercalate ", " ((pairs.filter (fun q => q.1 = k)).map (·.2)))))

/- Definitions above; helper lemmas and the claim theorems follow. -/

/-- The resource columns `outage_dataframe` merges onto the table:
`if resource is not None: final = df.assign(**{**resource, ...}) else:
final = df.assign(**{...})` — the resource fields are included exactly
when `get_resource` returned a mapping. -/
def outage_resource_columns (entries : List (List (String × String))) :
    List (String × String) :=
  match get_resource entries with
  | none => []
  | some r => r

/-! ## Helper lemmas -/

theorem firstKeys_const (k : String) :
    ∀ ks : List String, ks ≠ [] → (∀ x ∈ ks, x = k) → firstKeys ks = [k] := by
  have step : ∀ (ks : List String) (acc : List String), k ∈ acc →
      (∀ x ∈ ks, x = k) →
      ks.foldl (fun acc k => if k ∈ acc then acc else acc ++ [k]) acc = acc := by
    intro ks
    induction ks with
    | nil => intro acc _ _; rfl
    | cons x xs ih =>
      intro acc hk hall
      have hx : x = k := hall x (by simp)
      subst hx
      simp only [List.foldl_cons, if_pos hk]
      exact ih acc hk (fun y hy => hall y (by simp [hy]))
  intro ks hne hall
  match ks, hne with
  | x :: xs, _ =>
    have hx : x = k := hall x (by simp)
    subst hx
    simp only [firstKeys, List.foldl_cons]
    have h0 : (if x ∈ ([] : List String) then [] else [] ++ [x]) = [x] := by simp
    rw [h0]
    exact step xs [x] (by simp) (fun y hy => hall y (by simp [hy]))

theorem get_resource_uniform_join (t v : String) (vs : List String) :
    get_resource ((v :: vs).map (fun w => [(t, w)])) =
      some [("Asset_RegisteredResource." ++ t,
             String.intercalate ", " (v :: vs))] := by
  rw [List.map_cons]
  simp only [get_resource]
  set T := "Asset_RegisteredResource." ++ t with hT
  have hmap : ∀ w : String,
      pyDict ([(t, w)].map (fun q => ("Asset_RegisteredResource." ++ q.1, q.2))) = [(T, w)] := by
    intro w
    simp [pyDict, firstKeys, lastValue]
  have hflat : ∀ l : List String,
      (l.map (fun w => [(T, w)])).flatten = l.map (fun w => (T, w)) := by
    intro l
    induction l with
    | nil => rfl
    | cons x xs ih => simp [ih]
  have hdata : (([(t, v)] :: vs.map (fun w => [(t, w)])).map
        (fun e => pyDict (e.map (fun q => ("Asset_RegisteredResource." ++ q.1, q.2))))) =
      (v :: vs).map (fun w => [(T, w)]) := by
    rw [List.map_cons, List.map_cons, List.map_map]
    refine congrArg₂ _ (hmap v) (List.map_congr_left ?_)
    intro w _
    exact hmap w
  rw [hdata, hflat]
  have hkeys : firstKeys (((v :: vs).map (fun w => (T, w))).map (fun x => x.1)) = [T] := by
    refine firstKeys_const T _ (by simp) ?_
    intro x hx
    simp only [List.map_map, List.mem_map] at hx
    obtain ⟨w, _, rfl⟩ := hx
    rfl
  rw [hkeys]
  have hfilter : ((v :: vs).map (fun w => (T, w))).filter (fun q => decide (q.1 = T)) =
      (v :: vs).map (fun w => (T, w)) := by
    refine List.filter_eq_self.mpr ?_
    intro q hq
    simp only [List.mem_map] at hq
    obtain ⟨w, _, rfl⟩ := hq
    simp
  rw [List.map_cons]
  rw [hfilter]
  simp [List.map_map]

theorem foldl_max_mem : ∀ (l : List Nat) (a : Nat), l.foldl Nat.max a ∈ a :: l := by
  intro l
  induction l with
  | nil => intro a; simp
  | cons x xs ih =>
    intro a
    simp only [List.foldl_cons]
    rcases List.mem_cons.mp (ih (Nat.max a x)) with h | h
    · rw [h]
      rcases Nat.le_total a x with hax | hxa
      · simp [Nat.max_eq_right hax]
      · simp [Nat.max_eq_left hxa]
    · simp [h]

theorem le_foldl_max : ∀ (l : List Nat) (a : Nat), ∀ x ∈ a :: l, x ≤ l.foldl Nat.max a := by
  intro l
  induction l with
  | nil =>
    intro a x hx
    simp only [List.mem_singleton] at hx
    subst hx
    simp
  | cons y ys ih =>
    intro a x hx
    simp only [List.foldl_cons]
    have hmax : Nat.max a y ≤ ys.foldl Nat.max (Nat.max a y) :=
      ih (Nat.max a y) _ (by simp)
    rcases List.mem_cons.mp hx with rfl | hx'
    · exact le_trans (Nat.le_max_left x y) hmax
    · rcases List.mem_cons.mp hx' with rfl | hx''
      · exact le_trans (Nat.le_max_right a x) hmax
      · exact ih (Nat.max a y) _ (List.mem_cons_of_mem _ hx'')

theorem foldl_max_le : ∀ (l : List Nat) (a b : Nat), a ≤ b → (∀ x ∈ l, x ≤ b) →
    l.foldl Nat.max a ≤ b := by
  intro l
  induction l with
  | nil => intro a b ha _; simpa
  | cons x xs ih =>
    intro a b ha h
    simp only [List.foldl_cons]
    exact ih _ b (Nat.max_le.mpr ⟨ha, h x (by simp)⟩) (fun y hy => h y (by simp [hy]))

theorem foldl_max_perm {l l' : List Nat} (h : l.Perm l') :
    l.foldl Nat.max 0 = l'.foldl Nat.max 0 := by
  refine Nat.le_antisymm ?_ ?_
  · refine foldl_max_le _ 0 _ (Nat.zero_le _) ?_
    intro x hx
    exact le_foldl_max _ 0 x (List.mem_cons_of_mem _ (h.subset hx))
  · refine foldl_max_le _ 0 _ (Nat.zero_le _) ?_
    intro x hx
    exact le_foldl_max _ 0 x (List.mem_cons_of_mem _ (h.symm.subset hx))

theorem foldl_max_range' (n : Nat) : (List.range' 1 n).foldl Nat.max 0 = n := by
  refine Nat.le_antisymm ?_ ?_
  · refine foldl_max_le _ 0 n (Nat.zero_le n) ?_
    intro x hx
    rw [List.mem_range'_1] at hx
    omega
  · cases n with
    | zero => simp
    | succ m =>
      refine le_foldl_max _ 0 (m + 1) ?_
      refine List.mem_cons_of_mem _ ?_
      rw [List.mem_range'_1]
      omega

theorem range_map_succ (n : Nat) : (List.range n).map (· + 1) = List.range' 1 n := by
  rw [List.range'_eq_map_range]
  exact List.map_congr_left (fun a _ => Nat.add_comm a 1)

theorem dictLookup_isSome_iff (S : List Rec) (p : Nat) :
    (dictLookup S p).isSome ↔ p ∈ S.map Rec.position := by
  rw [dictLookup, Option.isSome_map']
  rw [List.getLast?_isSome]
  constructor
  · intro h
    rcases List.exists_mem_of_ne_nil _ h with ⟨r, hr⟩
    rw [List.mem_filter] at hr
    exact List.mem_map.mpr ⟨r, hr.1, by simpa using hr.2⟩
  · intro h
    rcases List.mem_map.mp h with ⟨r, hr, hrp⟩
    intro hemp
    have hrf : r ∈ S.filter (fun r => decide (r.position = p)) :=
      List.mem_filter.mpr ⟨hr, by simp [hrp]⟩
    simp [hemp] at hrf

theorem gapFills_all_present (S : List Rec) :
    ∀ ps : List Nat, (∀ p ∈ ps, (dictLookup S p).isSome) → gapFills S ps = some [] := by
  intro ps
  induction ps with
  | nil => intro _; rfl
  | cons p ps ih =>
    intro h
    have hp := h p (by simp)
    rcases Option.isSome_iff_exists.mp hp with ⟨v, hv⟩
    simp only [gapFills, hv]
    exact ih (fun q hq => h q (by simp [hq]))

theorem gapFills_some (S : List Rec) :
    ∀ ps : List Nat,
      (∀ p ∈ ps, dictLookup S p = none → (dictLookup S (prevPos S p)).isSome) →
      ∃ fs, gapFills S ps = some fs ∧
        fs.length = (ps.filter (fun p => (dictLookup S p).isNone)).length := by
  intro ps
  induction ps with
  | nil => intro _; exact ⟨[], rfl, rfl⟩
  | cons p ps ih =>
    intro h
    rcases ih (fun q hq hnone => h q (by simp [hq]) hnone) with ⟨fs, hfs, hlen⟩
    cases hd : dictLookup S p with
    | some v =>
      refine ⟨fs, ?_, ?_⟩
      · simp only [gapFills, hd]; exact hfs
      · rw [hlen]
        simp [List.filter_cons, hd]
    | none =>
      have hps := h p (by simp) hd
      rcases Option.isSome_iff_exists.mp hps with ⟨v, hv⟩
      refine ⟨⟨p, v⟩ :: fs, ?_, ?_⟩
      · simp only [gapFills, hd, hv, hfs]
        rfl
      · simp [List.filter_cons, hd, hlen]

theorem sortByPos_of_dense (data : List Rec)
    (hpos : data.map Rec.position = List.range' 1 data.length) :
    sortByPos data = data := by
  refine List.Sorted.insertionSort_eq ?_
  have hp : (data.map Rec.position).Pairwise (· ≤ ·) := by
    rw [hpos]
    exact List.pairwise_le_range' 1 data.length
  rw [List.pairwise_map] at hp
  exact hp

theorem check_dense (data : List Rec) (hne : data ≠ [])
    (hpos : data.map Rec.position = List.range' 1 data.length) :
    check_period_data_missing data = some data := by
  obtain ⟨a, l, rfl⟩ : ∃ a l, data = a :: l := by
    cases data with
    | nil => exact absurd rfl hne
    | cons a l => exact ⟨a, l, rfl⟩
  simp only [check_period_data_missing]
  rw [sortByPos_of_dense _ hpos]
  rw [hpos, foldl_max_range', range_map_succ]
  rw [gapFills_all_present _ _ ?_]
  · simp only [Option.map_some', List.append_nil]
    rw [sortByPos_of_dense _ hpos]
  · intro p hp
    rw [dictLookup_isSome_iff, hpos]
    exact hp

theorem check_length (data : List Rec) (hne : data ≠ [])
    (hnodup : (data.map Rec.position).Nodup)
    (h1 : 1 ∈ data.map Rec.position)
    (hpos1 : ∀ p ∈ data.map Rec.position, 1 ≤ p) :
    ∃ d, check_period_data_missing data = some d ∧
      d.length = (data.map Rec.position).foldl Nat.max 0 := by
  obtain ⟨a, l, rfl⟩ : ∃ a l, data = a :: l := by
    cases data with
    | nil => exact absurd rfl hne
    | cons a l => exact ⟨a, l, rfl⟩
  simp only [check_period_data_missing]
  set S := sortByPos (a :: l) with hS
  have hperm : S.Perm (a :: l) := List.perm_insertionSort posLe (a :: l)
  have hpm : (S.map Rec.position).Perm ((a :: l).map Rec.position) := hperm.map _
  set K := S.map Rec.position with hK
  have hKnodup : K.Nodup := (hpm.nodup_iff).mpr hnodup
  have hK1 : (1 : Nat) ∈ K := hpm.mem_iff.mpr h1
  have hKpos1 : ∀ p ∈ K, 1 ≤ p := fun p hp => hpos1 p (hpm.subset hp)
  set maxP := K.foldl Nat.max 0 with hmaxP
  have hub : ∀ p ∈ K, p ≤ maxP := fun p hp => le_foldl_max K 0 p (List.mem_cons_of_mem _ hp)
  have hmax1 : 1 ≤ maxP := le_foldl_max K 0 1 (List.mem_cons_of_mem _ hK1)
  have hfillable : ∀ p ∈ (List.range maxP).map (· + 1), dictLookup S p = none →
      (dictLookup S (prevPos S p)).isSome := by
    intro p hp hnone
    rw [range_map_succ, List.mem_range'_1] at hp
    have hpnotin : p ∉ K := by
      intro hmem'
      have hs := (dictLookup_isSome_iff S p).mpr hmem'
      rw [hnone] at hs
      simp at hs
    have hp1 : p ≠ 1 := fun h => hpnotin (h ▸ hK1)
    have h1lt : 1 < p := by omega
    have h1f : (1 : Nat) ∈ K.filter (· < p) :=
      List.mem_filter.mpr ⟨hK1, by simpa using h1lt⟩
    have hprev : prevPos S p = (K.filter (· < p)).foldl Nat.max 0 := rfl
    have hq1 : 1 ≤ prevPos S p := by
      rw [hprev]
      exact le_foldl_max _ 0 1 (List.mem_cons_of_mem _ h1f)
    have hqmem : prevPos S p ∈ K.filter (· < p) := by
      rw [hprev]
      rcases List.mem_cons.mp (foldl_max_mem (K.filter (· < p)) 0) with h0 | h0
      · rw [hprev] at hq1; omega
      · exact h0
    exact (dictLookup_isSome_iff S _).mpr (List.mem_filter.mp hqmem).1
  obtain ⟨fs, hfs, hfslen⟩ := gapFills_some S ((List.range maxP).map (· + 1)) hfillable
  rw [hfs]
  simp only [Option.map_some']
  refine ⟨_, rfl, ?_⟩
  have hsortlen : (sortByPos (S ++ fs)).length = S.length + fs.length := by
    rw [sortByPos, List.length_insertionSort, List.length_append]
  have hKlen : K.length = S.length := List.length_map S Rec.position
  have hcount : fs.length + K.length = maxP := by
    rw [hfslen, range_map_succ]
    have hsplit := (List.filter_append_perm
      (fun p => (dictLookup S p).isNone) (List.range' 1 maxP)).length_eq
    rw [List.length_append, List.length_range'] at hsplit
    have hnotpred : ∀ p ∈ List.range' 1 maxP,
        (!(dictLookup S p).isNone) = decide (p ∈ K) := by
      intro p _
      by_cases h : p ∈ K
      · have hs := (dictLookup_isSome_iff S p).mpr h
        cases ho : dictLookup S p with
        | none => rw [ho] at hs; simp at hs
        | some v => simp [h]
      · cases ho : dictLookup S p with
        | none => simp [h]
        | some v =>
          have hs : (dictLookup S p).isSome := by rw [ho]; rfl
          exact absurd ((dictLookup_isSome_iff S p).mp hs) h
    have hfc : (List.range' 1 maxP).filter (fun p => !(dictLookup S p).isNone) =
        (List.range' 1 maxP).filter (fun p => decide (p ∈ K)) :=
      List.filter_congr hnotpred
    have hpermK : ((List.range' 1 maxP).filter (fun p => decide (p ∈ K))).Perm K := by
      refine List.perm_of_nodup_nodup_toFinset_eq
        ((List.nodup_range' 1 maxP).filter _) hKnodup ?_
      ext x
      simp only [List.mem_toFinset, List.mem_filter, List.mem_range'_1, decide_eq_true_eq]
      constructor
      · exact fun h => h.2
      · intro hx
        exact ⟨⟨hKpos1 x hx, by have := hub x hx; omega⟩, hx⟩
    rw [hfc] at hsplit
    have hKfl := hpermK.length_eq
    omega
  rw [hsortlen]
  have hmaxorig : (((a :: l)).map Rec.position).foldl Nat.max 0 = maxP := by
    rw [hmaxP]
    exact foldl_max_perm hpm.symm
  omega

theorem firstKeys_aux_mem :
    ∀ (ks acc : List String) (x : String),
      x ∈ ks.foldl (fun acc k => if k ∈ acc then acc else acc ++ [k]) acc ↔
        x ∈ acc ∨ x ∈ ks := by
  intro ks
  induction ks with
  | nil => intro acc x; simp
  | cons k ks ih =>
    intro acc x
    simp only [List.foldl_cons]
    rw [ih]
    by_cases hk : k ∈ acc
    · simp only [if_pos hk, List.mem_cons]
      constructor
      · rintro (h | h)
        · exact Or.inl h
        · exact Or.inr (Or.inr h)
      · rintro (h | rfl | h)
        · exact Or.inl h
        · exact Or.inl hk
        · exact Or.inr h
    · simp only [if_neg hk, List.mem_append, List.mem_singleton, List.mem_cons]
      tauto

theorem firstKeys_mem (ks : List String) (x : String) :
    x ∈ firstKeys ks ↔ x ∈ ks := by
  rw [firstKeys, firstKeys_aux_mem]
  simp

theorem firstKeys_nodup (ks : List String) : (firstKeys ks).Nodup := by
  have aux : ∀ (ks acc : List String), acc.Nodup →
      (ks.foldl (fun acc k => if k ∈ acc then acc else acc ++ [k]) acc).Nodup := by
    intro ks
    induction ks with
    | nil => intro acc h; simpa
    | cons k ks ih =>
      intro acc h
      simp only [List.foldl_cons]
      by_cases hk : k ∈ acc
      · rw [if_pos hk]; exact ih acc h
      · rw [if_neg hk]
        refine ih _ ?_
        rw [List.nodup_append]
        exact ⟨h, List.nodup_singleton k, by simpa using fun hcon => hk hcon⟩
  exact aux ks [] List.nodup_nil

theorem lastValue_eq_none_iff {α : Type} (ps : List (String × α)) (k : String) :
    lastValue ps k = none ↔ k ∉ ps.map Prod.fst := by
  rw [lastValue]
  constructor
  · intro h hk
    rcases List.mem_map.mp hk with ⟨q, hq, hqk⟩
    have hqf : q ∈ ps.filter (fun q => decide (q.1 = k)) :=
      List.mem_filter.mpr ⟨hq, by simp [hqk]⟩
    have hne := List.ne_nil_of_mem hqf
    rw [Option.map_eq_none', List.getLast?_eq_none_iff] at h
    exact hne h
  · intro h
    rw [Option.map_eq_none', List.getLast?_eq_none_iff]
    rw [List.filter_eq_nil_iff]
    intro q hq
    simp only [decide_eq_true_eq]
    intro hqk
    exact h (List.mem_map.mpr ⟨q, hq, hqk⟩)

theorem lastValue_isSome_iff {α : Type} (ps : List (String × α)) (k : String) :
    (lastValue ps k).isSome ↔ k ∈ ps.map Prod.fst := by
  cases h : lastValue ps k with
  | none =>
    simp only [Option.isSome_none, Bool.false_eq_true, false_iff]
    exact (lastValue_eq_none_iff ps k).mp h
  | some v =>
    simp only [Option.isSome_some, true_iff]
    by_contra hk
    have hnone := (lastValue_eq_none_iff ps k).mpr hk
    rw [h] at hnone
    exact Option.noConfusion hnone

theorem filterMap_keys {α : Type} (g : String → Option α) :
    ∀ ks : List String, (∀ k ∈ ks, (g k).isSome) →
      (ks.filterMap (fun k => (g k).map (Prod.mk k))).map Prod.fst = ks := by
  intro ks
  induction ks with
  | nil => intro _; rfl
  | cons a ks ih =>
    intro h
    rcases Option.isSome_iff_exists.mp (h a (by simp)) with ⟨v, hv⟩
    simp only [List.filterMap_cons, hv, Option.map_some']
    simp only [List.map_cons]
    rw [ih (fun k hk => h k (by simp [hk]))]

theorem filterMap_lookup {α : Type} (g : String → Option α) :
    ∀ ks : List String, (∀ k ∈ ks, (g k).isSome) → ks.Nodup →
      ∀ k, (ks.filterMap (fun k => (g k).map (Prod.mk k))).lookup k =
        if k ∈ ks then g k else none := by
  intro ks
  induction ks with
  | nil => intro _ _ k; simp
  | cons a ks ih =>
    intro h hnodup k
    rcases Option.isSome_iff_exists.mp (h a (by simp)) with ⟨v, hv⟩
    simp only [List.filterMap_cons, hv, Option.map_some']
    rw [List.lookup_cons]
    by_cases hk : k = a
    · subst hk
      simp [hv]
    · have hbeq : (k == a) = false := by simpa using hk
      rw [hbeq]
      rw [ih (fun q hq => h q (by simp [hq])) hnodup.of_cons k]
      simp [List.mem_cons, hk]

theorem pyDict_keys {α : Type} (ps : List (String × α)) :
    (pyDict ps).map Prod.fst = firstKeys (ps.map Prod.fst) := by
  rw [pyDict]
  refine filterMap_keys _ _ ?_
  intro k hk
  rw [lastValue_isSome_iff]
  exact (firstKeys_mem _ k).mp hk

theorem pyDict_lookup {α : Type} (ps : List (String × α)) (k : String) :
    (pyDict ps).lookup k = lastValue ps k := by
  rw [pyDict]
  rw [filterMap_lookup (lastValue ps) (firstKeys (ps.map Prod.fst))
    (fun q hq => (lastValue_isSome_iff ps q).mpr ((firstKeys_mem _ q).mp hq))
    (firstKeys_nodup _) k]
  by_cases hk : k ∈ firstKeys (ps.map Prod.fst)
  · rw [if_pos hk]
  · rw [if_neg hk]
    rw [Eq.comm, lastValue_eq_none_iff]
    exact fun hcon => hk ((firstKeys_mem _ k).mpr hcon)

theorem unfold_node_fst : ∀ c : XNode, (unfold_node c).1 = c.tag := by
  intro c
  cases c with
  | mk tag text children =>
    cases children with
    | nil => simp [unfold_node, XNode.tag]
    | cons c0 cs => simp [unfold_node, XNode.tag]

/-! ## Claim theorems -/

/-- C1, counterexample: reconciling positions `{1: "a", 3: "c"}` with
`length = 4` does not yield positions 1–4 in ascending order — the padded
tail record is numbered `1`, not `4`, so the position sequence of the
result is `1, 2, 3, 1`. -/
theorem C1_tail_padding_counterexample :
    get_Period_data [⟨1, "a"⟩, ⟨3, "c"⟩] 4 =
      some [⟨1, "a"⟩, ⟨2, "a"⟩, ⟨3, "c"⟩, ⟨1, "c"⟩] ∧
    [Rec.mk 1 "a", ⟨2, "a"⟩, ⟨3, "c"⟩, ⟨1, "c"⟩].map Rec.position ≠ [1, 2, 3, 4] := by
  refine ⟨by decide, by decide⟩

/-- C1, amended: reconciling positions `{1: "a", 3: "c"}` with
`length = 4` yields the values `a, a, c, c` in order (the gap at position
2 forward-filled from position 1, the missing tail padded with the last
record's value `c`), but the padded record is numbered `str(i + 1)`
counting from the start of the padding loop — position `1` — rather than
sequentially after the last known position. -/
theorem C1_tail_padding :
    get_Period_data [⟨1, "a"⟩, ⟨3, "c"⟩] 4 =
      some [⟨1, "a"⟩, ⟨2, "a"⟩, ⟨3, "c"⟩, ⟨1, "c"⟩] ∧
    [Rec.mk 1 "a", ⟨2, "a"⟩, ⟨3, "c"⟩, ⟨1, "c"⟩].map Rec.value = ["a", "a", "c", "c"] ∧
    [Rec.mk 1 "a", ⟨2, "a"⟩, ⟨3, "c"⟩, ⟨1, "c"⟩].map Rec.position = [1, 2, 3, 1] := by
  refine ⟨by decide, by decide, by decide⟩

/-- C3: the time index is half-open — for start `2023-01-01T00:00Z`
(minute 0), end `2023-01-01T02:00Z` (minute 120) and hourly resolution the
index holds exactly the two entries `00:00` and `01:00` — and for
`start = end` the single generated entry is kept for every fixed-tick
resolution code (the two month-end codes generate calendar dates and lie
outside the fixed-tick timestamp model). -/
theorem C3_period_index_half_open :
    get_Period_index 0 120 "PT60M" = some [0, 60] ∧
    ∀ (s : Int), ∀ r ∈ (["P7D", "P1D", "PT60M", "PT30M", "PT15M", "PT1M"] : List String),
      get_Period_index s s r = some [s] := by
  refine ⟨by decide, ?_⟩
  intro s r hr
  have key : ∀ f : Nat, f ≠ 0 → date_range_tick s s f = [s] := by
    intro f hf
    have h1 : List.range 1 = [0] := rfl
    simp [date_range_tick, hf, h1]
  fin_cases hr <;>
    simp [get_Period_index, resolution_map, pandas_freq, key]

/-- C3, witness: the degenerate interval at minute 7 with quarter-hour
resolution keeps its single entry. -/
theorem C3_period_index_half_open_witness :
    get_Period_index 7 7 "PT15M" = some [7] :=
  C3_period_index_half_open.2 7 "PT15M" (by decide)

/-- C4, counterexample: for zero affected-resource entries none of the
four documented placeholder fields is present on the table —
`get_resource` returns `None` (the placeholder branch is unreachable
behind the `find` guard) and `outage_dataframe` then merges no resource
columns at all. -/
theorem C4_zero_resource_counterexample :
    (outage_resource_columns []).lookup "Asset_RegisteredResource.mRID" = none ∧
    (outage_resource_columns []).lookup "Asset_RegisteredResource.name" = none ∧
    (outage_resource_columns []).lookup "Asset_RegisteredResource.asset_PSRType.psrType" = none ∧
    (outage_resource_columns []).lookup "Asset_RegisteredResource.location.name" = none := by
  refine ⟨rfl, rfl, rfl, rfl⟩

/-- C4, amended: for an outage document with zero affected-resource
entries `get_resource` falls through its presence guard and returns
`None`, so the resulting table carries no `Asset_RegisteredResource`
columns; the empty-string placeholder branch in the source is dead
code. -/
theorem C4_zero_resource :
    get_resource [] = none ∧ outage_resource_columns [] = [] := by
  refine ⟨rfl, rfl⟩

/-- C5, counterexample: on a document with zero data points the standard
period extraction does not return a result — `list(data[0].keys())[1]`
raises `IndexError` on the empty point list (modelled as `none`). -/
theorem C5_empty_points_counterexample :
    get_Period_data ([] : List Rec) 4 = none := rfl

/-- C5, amended: on zero data points only the outage extraction recovers
locally — `get_data` emits the single sentinel row (position `-1`,
quantity `0`) at the fallback index and returns — while the standard
`get_Period_data` raises on an empty point list. -/
theorem C5_empty_points :
    (∀ index : List Int, get_data index [] = some (index, [⟨-1, 0⟩])) ∧
    (∀ length : Nat, get_Period_data [] length = none) :=
  ⟨fun _ => rfl, fun _ => rfl⟩

/-- C9: every code of the fixed enumeration resolves through
`resolution_map`; any code outside it is a lookup failure (`KeyError`,
modelled `none`), and `get_Period_index` then fails rather than silently
ignoring it. -/
theorem C9_resolution_table :
    (∀ c ∈ (["P1Y", "P1M", "P7D", "P1D", "PT60M", "PT30M", "PT15M", "PT1M"] : List String),
      (resolution_map c).isSome) ∧
    (∀ c : String,
      c ∉ (["P1Y", "P1M", "P7D", "P1D", "PT60M", "PT30M", "PT15M", "PT1M"] : List String) →
      resolution_map c = none) ∧
    (∀ (s e : Int) (c : String), resolution_map c = none → get_Period_index s e c = none) := by
  refine ⟨by decide, ?_, ?_⟩
  · intro c hc
    simp only [List.mem_cons, List.not_mem_nil, or_false, not_or] at hc
    obtain ⟨h1, h2, h3, h4, h5, h6, h7, h8⟩ := hc
    simp [resolution_map, h1, h2, h3, h4, h5, h6, h7, h8]
  · intro s e c hc
    simp [get_Period_index, hc]

/-- C9, witness: the five-minute code `PT5M` is outside the table and
fails the lookup, and the index builder fails with it. -/
theorem C9_resolution_table_witness :
    resolution_map "PT5M" = none ∧ get_Period_index 0 60 "PT5M" = none :=
  ⟨C9_resolution_table.2.1 "PT5M" (by decide),
   C9_resolution_table.2.2 0 60 "PT5M" (C9_resolution_table.2.1 "PT5M" (by decide))⟩

/-- C10: two affected-resource entries with `mRID` values `R1` and `R2`
merge to the single field `Asset_RegisteredResource.mRID = "R1, R2"`;
in general a field shared by every entry is comma-joined across all
entries in their order of appearance. -/
theorem C10_multi_resource_join :
    get_resource [[("mRID", "R1")], [("mRID", "R2")]] =
      some [("Asset_RegisteredResource.mRID", "R1, R2")] ∧
    ∀ (t v : String) (vs : List String),
      get_resource ((v :: vs).map (fun w => [(t, w)])) =
        some [("Asset_RegisteredResource." ++ t,
               String.intercalate ", " (v :: vs))] :=
  ⟨by decide, get_resource_uniform_join⟩

/-- C2, counterexample: the postcondition `len(reconciled) == length`
fails for a non-empty input whose positions include 1 and do not exceed
`length`, once a position is duplicated — two records at position 1
reconciled with `length = 1` yield two records, not one (the maximum
position, computed as in the source, is 1). -/
theorem C2_reconciled_length_counterexample :
    ([Rec.mk 1 "a", ⟨1, "b"⟩].map Rec.position).foldl Nat.max 0 = 1 ∧
    (get_Period_data [⟨1, "a"⟩, ⟨1, "b"⟩] 1).map List.length = some 2 := by
  refine ⟨by decide, by decide⟩

/-- C2, amended: for every non-empty list of Point records whose
positions are pairwise distinct, at least 1, include 1, and do not exceed
the required `length`, `get_Period_data` returns a list of exactly
`length` records. -/
theorem C2_reconciled_length (data : List Rec) (length : Nat) (hne : data ≠ [])
    (hnodup : (data.map Rec.position).Nodup)
    (h1 : 1 ∈ data.map Rec.position)
    (hbound : ∀ p ∈ data.map Rec.position, 1 ≤ p ∧ p ≤ length) :
    (get_Period_data data length).map List.length = some length := by
  obtain ⟨d, hd, hdlen⟩ := check_length data hne hnodup h1 (fun p hp => (hbound p hp).1)
  have hmax1 : 1 ≤ (data.map Rec.position).foldl Nat.max 0 :=
    le_foldl_max _ 0 1 (List.mem_cons_of_mem _ h1)
  have hmaxle : (data.map Rec.position).foldl Nat.max 0 ≤ length :=
    foldl_max_le _ 0 length (Nat.zero_le _) (fun p hp => (hbound p hp).2)
  obtain ⟨a, l, rfl⟩ : ∃ a l, data = a :: l := by
    cases data with
    | nil => exact absurd rfl hne
    | cons a l => exact ⟨a, l, rfl⟩
  simp only [get_Period_data]
  rw [hd]
  simp only [Option.map_some']
  have hdne : d ≠ [] := by
    intro h
    rw [h] at hdlen
    simp only [List.length_nil] at hdlen
    omega
  cases hlast : d.getLast? with
  | none => exact absurd (List.getLast?_eq_none_iff.mp hlast) hdne
  | some last =>
    by_cases hEq : length = d.length
    · simp [hEq]
    · simp only [if_neg hEq]
      simp only [Option.map_some', Option.some.injEq]
      rw [List.length_append, List.length_map, List.length_range]
      omega

/-- C2, witness: positions `{1, 3}` with `length = 4` reconcile to
exactly 4 records. -/
theorem C2_reconciled_length_witness :
    (get_Period_data [⟨1, "a"⟩, ⟨3, "c"⟩] 4).map List.length = some 4 :=
  C2_reconciled_length [⟨1, "a"⟩, ⟨3, "c"⟩] 4 (by decide) (by decide)
    (by decide) (by decide)

/-- C6, counterexample: `check_period_data_missing` does not leave the
caller's list unchanged — for the unsorted, gapped input
`[(3, c), (1, a)]` the caller's list after the call (which aliases the
returned object, Python `list.sort` and `list.append` being in-place) is
the sorted, gap-filled `[(1, a), (2, a), (3, c)]`, differing from the
original in both content and order. -/
theorem C6_no_mutation_counterexample :
    check_period_data_missing_st [⟨3, "c"⟩, ⟨1, "a"⟩] =
      some ([⟨1, "a"⟩, ⟨2, "a"⟩, ⟨3, "c"⟩], [⟨1, "a"⟩, ⟨2, "a"⟩, ⟨3, "c"⟩]) ∧
    [Rec.mk 1 "a", ⟨2, "a"⟩, ⟨3, "c"⟩] ≠ [Rec.mk 3 "c", ⟨1, "a"⟩] := by
  refine ⟨by decide, by decide⟩

/-- C6, amended: `check_period_data_missing` mutates its argument in
place — after every successful call the caller's list equals the
returned sorted, gap-filled list; it coincides with the original exactly
in the already-dense, already-sorted case (positions `1..N` in order),
where the call returns the input unchanged. -/
theorem C6_in_place_mutation :
    (∀ (data r after : List Rec),
        check_period_data_missing_st data = some (r, after) → after = r) ∧
    (∀ data : List Rec, data ≠ [] →
        data.map Rec.position = List.range' 1 data.length →
        check_period_data_missing_st data = some (data, data)) := by
  constructor
  · intro data r after h
    simp only [check_period_data_missing_st] at h
    cases hc : check_period_data_missing data with
    | none => rw [hc] at h; simp at h
    | some x =>
      rw [hc] at h
      simp only [Option.map_some', Option.some.injEq, Prod.mk.injEq] at h
      rw [← h.1, ← h.2]
  · intro data hne hpos
    simp only [check_period_data_missing_st, check_dense data hne hpos]
    rfl

/-- C6, witness: the dense sorted input `[(1, a), (2, b)]` comes back
unchanged, caller's list included. -/
theorem C6_in_place_mutation_witness :
    check_period_data_missing_st [⟨1, "a"⟩, ⟨2, "b"⟩] =
      some ([⟨1, "a"⟩, ⟨2, "b"⟩], [⟨1, "a"⟩, ⟨2, "b"⟩]) :=
  C6_in_place_mutation.2 [⟨1, "a"⟩, ⟨2, "b"⟩] (by decide) (by decide)

/-- C7: `unfold_node` on a leaf returns `(tag, text)`; on a non-leaf it
returns `(tag, m)` where the keys of `m` are exactly the distinct child
tags (in order of first appearance) and each key holds the recursive
decomposition of the last child bearing that tag — a silent overwrite,
not an error. -/
theorem C7_unfold_node_decomposition :
    (∀ (tag : String) (text : Option String),
      unfold_node (.mk tag text []) = (tag, .text text)) ∧
    (∀ (tag : String) (text : Option String) (c0 : XNode) (cs : List XNode),
      ∃ m, unfold_node (.mk tag text (c0 :: cs)) = (tag, .map m) ∧
        m.map Prod.fst = firstKeys ((c0 :: cs).map XNode.tag) ∧
        (∀ k, k ∈ m.map Prod.fst ↔ k ∈ (c0 :: cs).map XNode.tag) ∧
        (∀ k, m.lookup k =
          (((c0 :: cs).filter (fun c => c.tag = k)).getLast?).map
            (fun c => (unfold_node c).2))) := by
  constructor
  · intro tag text
    simp [unfold_node]
  · intro tag text c0 cs
    have hattach : ((c0 :: cs).attach.map (fun c => unfold_node c.1)) =
        (c0 :: cs).map unfold_node := List.attach_map_val (c0 :: cs) unfold_node
    have hU : unfold_node (.mk tag text (c0 :: cs)) =
        (tag, .map (pyDict ((c0 :: cs).map unfold_node))) := by
      rw [unfold_node, hattach]
    refine ⟨pyDict ((c0 :: cs).map unfold_node), hU, ?_, ?_, ?_⟩
    all_goals
      have hkeys : ((c0 :: cs).map unfold_node).map Prod.fst = (c0 :: cs).map XNode.tag := by
        rw [List.map_map]
        exact List.map_congr_left (fun c _ => unfold_node_fst c)
    · rw [pyDict_keys, hkeys]
    · intro k
      rw [pyDict_keys, hkeys, firstKeys_mem]
    · intro k
      rw [pyDict_lookup, lastValue]
      rw [List.filter_map]
      have hfc : ((c0 :: cs).filter ((fun q : String × UVal => decide (q.1 = k)) ∘ unfold_node)) =
          ((c0 :: cs).filter (fun c => decide (c.tag = k))) := by
        refine List.filter_congr ?_
        intro c _
        simp only [Function.comp_apply, unfold_node_fst]
      rw [hfc, List.getLast?_map, Option.map_map]
      rfl

/-- C8: reconciliation is the identity on dense input — a list whose
positions are exactly `1..N` in ascending order, reconciled with
`length = N`, is returned unchanged in order and values. -/
theorem C8_dense_idempotence (data : List Rec) (hne : data ≠ [])
    (hpos : data.map Rec.position = List.range' 1 data.length) :
    get_Period_data data data.length = some data := by
  obtain ⟨a, l, rfl⟩ : ∃ a l, data = a :: l := by
    cases data with
    | nil => exact absurd rfl hne
    | cons a l => exact ⟨a, l, rfl⟩
  simp only [get_Period_data]
  rw [check_dense _ hne hpos]
  simp only [Option.map_some']
  cases hlast : (a :: l).getLast? with
  | none => simp at hlast
  | some last => simp

/-- C8, witness: the dense three-point series `x, y, z` at positions
`1, 2, 3` with `length = 3` comes back unchanged. -/
theorem C8_dense_idempotence_witness :
    get_Period_data [⟨1, "x"⟩, ⟨2, "y"⟩, ⟨3, "z"⟩] 3 =
      some [⟨1, "x"⟩, ⟨2, "y"⟩, ⟨3, "z"⟩] :=
  C8_dense_idempotence [⟨1, "x"⟩, ⟨2, "y"⟩, ⟨3, "z"⟩] (by decide) (by decide)

end EntsoeClient
